import Mathlib

/-!
# Shallow embedding of the `cron-parser` repository

Two near-duplicate Python modules are modelled:

* `src/cron_parser.py` (the legacy module), embedded in the `Legacy`
  namespace (`Legacy.parse_expression`, `Legacy.parse_step`, ...);
* `src/cron_parser/c_parser.py` together with its static configuration
  `src/cron_parser/config.py`, embedded at the top of the `Cron`
  namespace (`get_expression_values`, `parse_cron`, `generate_table`, ...).

Python strings are modelled as `List Char`, Python integers as `Int`.
The Python primitives the source relies on are modelled explicitly:
`int(...)` conversion (`pyInt`), `str.split(sep)` (`splitOnChar`),
`str.split()` (`pySplitWs`), `list.index` (`pyIndex?`), slicing
(`strideTake`, `pySliceStride`), `str.replace` (`replaceAll`) and
`list.sort()` (`pySortInts`).  Failures — both the custom exception
classes raised by `c_parser.py` and the uncaught builtin `ValueError` /
`ZeroDivisionError` escapes — are modelled as `Except` errors, one
constructor per raise site.
-/

namespace Cron

/-- Characters of a Python string. -/
abbrev Chars := List Char

/-- ASCII whitespace characters recognised by Python's `str.split()` and
stripped by `int(...)` (the model is restricted to ASCII whitespace). -/
def isWs (c : Char) : Bool :=
  c == ' ' || c == '\t' || c == '\n' || c == '\r' || c == Char.ofNat 11 || c == Char.ofNat 12

/-- ASCII decimal digit (the model of `int(...)` is restricted to ASCII digits). -/
def isAsciiDigit (c : Char) : Bool :=
  '0' ≤ c && c ≤ '9'

/-- Strip leading and trailing whitespace, as `int(...)` does. -/
def trimWs (cs : Chars) : Chars :=
  ((cs.dropWhile isWs).reverse.dropWhile isWs).reverse

/-- Numeric value of a digit string (underscore separators already removed). -/
def digitsVal (cs : Chars) : Int :=
  cs.foldl (fun a c => a * 10 + ((c.toNat - '0'.toNat : Nat) : Int)) 0

/-- Validity of the tail of a Python integer literal: every `_` must sit
between two digits, every other character must be a digit. -/
def digitsTailOk : Chars → Bool
  | [] => true
  | '_' :: [] => false
  | '_' :: d :: rest => isAsciiDigit d && digitsTailOk rest
  | c :: rest => isAsciiDigit c && digitsTailOk rest

/-- Parse an unsigned run of digits with optional `_` grouping, as accepted
by Python's `int(...)` after sign and whitespace handling. -/
def pyDigits? (cs : Chars) : Option Int :=
  match cs with
  | [] => none
  | c :: rest =>
    if isAsciiDigit c && digitsTailOk rest then
      some (digitsVal ((c :: rest).filter (fun x => x != '_')))
    else none

/-- Model of Python `int(s)`: optional surrounding whitespace, optional
single sign, then a digit run.  Returns `none` where `int(...)` raises
`ValueError`. -/
def pyInt (cs : Chars) : Option Int :=
  match trimWs cs with
  | '+' :: rest => pyDigits? rest
  | '-' :: rest => (pyDigits? rest).map (fun n => -n)
  | t => pyDigits? t

/-- Model of Python `s.split(sep)` for a one-character separator: always
returns at least one (possibly empty) part. -/
def splitOnChar (sep : Char) : Chars → List Chars
  | [] => [[]]
  | c :: rest =>
    let r := splitOnChar sep rest
    if c = sep then [] :: r
    else
      match r with
      | h :: t => (c :: h) :: t
      | [] => [[c]]

/-- Accumulator-style worker for `pySplitWs`. -/
def pySplitWsAux (acc : Chars) : Chars → List Chars
  | [] => if acc.isEmpty then [] else [acc.reverse]
  | c :: rest =>
    if isWs c then
      if acc.isEmpty then pySplitWsAux [] rest
      else acc.reverse :: pySplitWsAux [] rest
    else pySplitWsAux (c :: acc) rest

/-- Model of Python `s.split()` with no separator: splits on whitespace
runs and discards empty tokens. -/
def pySplitWs (cs : Chars) : List Chars :=
  pySplitWsAux [] cs

/-- Model of Python `l.index(x)`: position of the first occurrence, `none`
where `list.index` raises `ValueError`. -/
def pyIndex? (x : Int) : List Int → Option Nat
  | [] => none
  | y :: rest => if y = x then some 0 else (pyIndex? x rest).map (· + 1)

/-- Model of Python `str(n)` for an integer. -/
def intToChars (n : Int) : Chars :=
  if n < 0 then '-' :: Nat.toDigits 10 n.natAbs else Nat.toDigits 10 n.toNat

/-- Model of Python `l.sort()` on a list of integers: the ascending
reordering (stability is invisible on integers). -/
def pySortInts (l : List Int) : List Int :=
  l.insertionSort (· ≤ ·)

/-- One cell of a parsed field: an integer, or a descriptive string (the
weekday label or the `"N/A"` sentinel), matching the mixed-type lists the
Python code builds. -/
inductive Cell
  | int : Int → Cell
  | str : Chars → Cell
deriving DecidableEq, Repr

/-- Decidable equality on `Except` results, for evaluating the embedding
on concrete inputs. -/
instance {ε α : Type} [DecidableEq ε] [DecidableEq α] : DecidableEq (Except ε α) := fun a b =>
  match a, b with
  | .ok x, .ok y =>
    if h : x = y then .isTrue (by rw [h]) else .isFalse (by intro hc; cases hc; exact h rfl)
  | .error x, .error y =>
    if h : x = y then .isTrue (by rw [h]) else .isFalse (by intro hc; cases hc; exact h rfl)
  | .ok _, .error _ => .isFalse (by intro hc; cases hc)
  | .error _, .ok _ => .isFalse (by intro hc; cases hc)

/-- The error taxonomy of `c_parser.py`: the two custom exception classes
imported from `cron_parser.exceptions`, plus the two builtin exceptions
that can escape uncaught. -/
inductive ErrKind
  | invalidExpression
  | invalidValue
  | builtinValueError
  | builtinZeroDivision
deriving DecidableEq, Repr

/-- Failures of `c_parser.py`, one constructor per raise site (each site
has a distinct message in the source, recalled in the comments). -/
inductive Err
  /-- InvalidCronExpressionError: "Please enter a weekday expression in the format <day of month>W" -/
  | invalidExprWeekdayFormat
  /-- InvalidCronValueError: "Please enter an integer for the day of month part of the weekday expression" -/
  | invalidValueWeekdayInt
  /-- InvalidCronValueError: "Please enter a valid day of the month" -/
  | invalidValueWeekdayDay
  /-- InvalidCronValueError: "Please enter a list expression with either comma separated integers or ranges" -/
  | invalidValueListElem
  /-- InvalidCronExpressionError: "Please enter a range in the format n-k where n and k are integers" -/
  | invalidExprRangeFormat
  /-- InvalidCronValueError: "Please enter a range where the start value is less than the end value" -/
  | invalidValueRangeOrder
  /-- InvalidCronValueError: "Please enter an integer increment step value" -/
  | invalidValueStepIncrement
  /-- InvalidCronValueError: "Please enter a step start value containing a digit, * or range" -/
  | invalidValueStepStart
  /-- InvalidCronValueError: "The step start expression is not in the allowed values" -/
  | invalidValueStepStartMissing
  /-- InvalidCronExpressionError: "The expression entered is invalid or not yet accounted for" -/
  | invalidExprBareToken
  /-- InvalidCronExpressionError: "Please enter a valid value for the field" -/
  | invalidExprBareValue
  /-- InvalidCronExpressionError: "Please parse an argument in the format <minute> <hour> <day of month> <month> <day of week> <command>" -/
  | malformedLine
  /-- Uncaught builtin ValueError from tuple unpacking of a `split` result. -/
  | valueErrorUnpack
  /-- Uncaught builtin ValueError from `list.index` on a missing value. -/
  | valueErrorIndex
  /-- Uncaught builtin ValueError: "slice step cannot be zero". -/
  | valueErrorSliceStep
  /-- Uncaught builtin ZeroDivisionError from `i % 0`. -/
  | zeroDivision
deriving DecidableEq, Repr

/-- Exception class of each failure of `c_parser.py`. -/
def Err.kind : Err → ErrKind
  | .invalidExprWeekdayFormat => .invalidExpression
  | .invalidValueWeekdayInt => .invalidValue
  | .invalidValueWeekdayDay => .invalidValue
  | .invalidValueListElem => .invalidValue
  | .invalidExprRangeFormat => .invalidExpression
  | .invalidValueRangeOrder => .invalidValue
  | .invalidValueStepIncrement => .invalidValue
  | .invalidValueStepStart => .invalidValue
  | .invalidValueStepStartMissing => .invalidValue
  | .invalidExprBareToken => .invalidExpression
  | .invalidExprBareValue => .invalidExpression
  | .malformedLine => .invalidExpression
  | .valueErrorUnpack => .builtinValueError
  | .valueErrorIndex => .builtinValueError
  | .valueErrorSliceStep => .builtinValueError
  | .zeroDivision => .builtinZeroDivision

/-- Label produced by `get_nearest_weekday` / `Legacy.parse_weekday`:
`"Nearest weekday to the " + str(day_of_month) + " of the month"`. -/
def weekdayLabel (n : Int) : Chars :=
  ("Nearest weekday to the ".data) ++ intToChars n ++ (" of the month".data)

/-- Model of the comprehension `[i for i in l if i % inc == 0]`: the
modulus is evaluated once per element, so an empty `l` never divides;
`none` models the uncaught `ZeroDivisionError`. -/
def filterModZero (l : List Int) (inc : Int) : Option (List Int) :=
  match l with
  | [] => some []
  | x :: rest =>
    if inc = 0 then none
    else
      match filterModZero rest inc with
      | none => none
      | some r => some (if x % inc = 0 then x :: r else r)

/-- Worker for `strideTake`: the counter holds how many positions remain
to be skipped before the next element is kept. -/
def strideGo (k : Nat) : Nat → List Int → List Int
  | _, [] => []
  | 0, x :: rest => x :: strideGo k (k - 1) rest
  | n + 1, _ :: rest => strideGo k n rest

/-- Every `k`-th element starting from index 0 (Python `l[0::k]` for `k ≥ 1`). -/
def strideTake (l : List Int) (k : Nat) : List Int :=
  strideGo k 0 l

/-- Model of Python `l[0::step]`: `none` models the `ValueError` ("slice
step cannot be zero") on step 0; a positive step walks forward, a negative
step yields at most the first element. -/
def pySliceStride (l : List Int) (step : Int) : Option (List Int) :=
  if step = 0 then none
  else if 0 < step then some (strideTake l step.toNat)
  else some (l.take 1)

/-- `generate_range` of `c_parser.py`. -/
def generate_range (start endv : Chars) (allowed_values : List Int) : Except Err (List Int) :=
  match pyInt start, pyInt endv with
  | some s, some e =>
    if e < s then .error .invalidValueRangeOrder
    else
      match pyIndex? s allowed_values with
      | none => .error .valueErrorIndex
      | some start_index =>
        match pyIndex? e allowed_values with
        | none => .error .valueErrorIndex
        | some end_index => .ok ((allowed_values.drop start_index).take (end_index + 1 - start_index))
  | _, _ => .error .invalidExprRangeFormat

/-- `parse_step` of `c_parser.py`.  In the bare-integer branch only the
`list.index` lookup can raise `ValueError` inside the `try`, so a missing
start becomes `InvalidCronValueError` while a zero increment still escapes
as `ZeroDivisionError`. -/
def parse_step (start_exp increment : Chars) (allowed_values : List Int) : Except Err (List Int) :=
  match pyInt increment with
  | none => .error .invalidValueStepIncrement
  | some increment_val =>
    if start_exp = ['*'] then
      match filterModZero allowed_values increment_val with
      | none => .error .zeroDivision
      | some r => .ok r
    else if '-' ∈ start_exp then
      match splitOnChar '-' start_exp with
      | [s, e] =>
        match generate_range s e allowed_values with
        | .error er => .error er
        | .ok ranges =>
          match pySliceStride ranges increment_val with
          | none => .error .valueErrorSliceStep
          | some r => .ok r
      | _ => .error .valueErrorUnpack
    else
      match pyInt start_exp with
      | none => .error .invalidValueStepStart
      | some sVal =>
        match pyIndex? sVal allowed_values with
        | none => .error .invalidValueStepStartMissing
        | some start_index =>
          match filterModZero (allowed_values.drop start_index) increment_val with
          | none => .error .zeroDivision
          | some r => .ok r

/-- `get_nearest_weekday` of `c_parser.py`. -/
def get_nearest_weekday (day_of_month : Chars) (allowed_values : List Int) : Except Err Chars :=
  match pyInt day_of_month with
  | none => .error .invalidValueWeekdayInt
  | some d => if d ∈ allowed_values then .ok (weekdayLabel d) else .error .invalidValueWeekdayDay

/-- Accumulation loop of `expand_list_values`: ranges are re-expanded via
`generate_range`, bare elements must parse as integers and are appended
unchecked. -/
def expandListGo (elements : List Chars) (allowed_values : List Int) : Except Err (List Int) :=
  match elements with
  | [] => .ok []
  | v :: rest =>
    if '-' ∈ v then
      match splitOnChar '-' v with
      | [s, e] =>
        match generate_range s e allowed_values with
        | .error er => .error er
        | .ok vals =>
          match expandListGo rest allowed_values with
          | .error er => .error er
          | .ok r => .ok (vals ++ r)
      | _ => .error .valueErrorUnpack
    else
      match pyInt v with
      | none => .error .invalidValueListElem
      | some n =>
        match expandListGo rest allowed_values with
        | .error er => .error er
        | .ok r => .ok (n :: r)

/-- `expand_list_values` of `c_parser.py`: accumulate, then `output.sort()`. -/
def expand_list_values (elements : List Chars) (allowed_values : List Int) : Except Err (List Int) :=
  match expandListGo elements allowed_values with
  | .error er => .error er
  | .ok output => .ok (pySortInts output)

/-- `get_expression_values` of `c_parser.py`: the field expression
evaluator, dispatching on marker characters in source order. -/
def get_expression_values (expression : Chars) (allowed_chars : Chars) (allowed_values : List Int) :
    Except Err (List Cell) :=
  if 'W' ∈ expression ∧ 'W' ∈ allowed_chars then
    match splitOnChar 'W' expression with
    | [d, _] =>
      match get_nearest_weekday d allowed_values with
      | .error er => .error er
      | .ok lbl => .ok [Cell.str lbl]
    | _ => .error .invalidExprWeekdayFormat
  else if '/' ∈ expression ∧ '/' ∈ allowed_chars then
    match splitOnChar '/' expression with
    | [s, e] =>
      match parse_step s e allowed_values with
      | .error er => .error er
      | .ok vals => .ok (vals.map Cell.int)
    | _ => .error .valueErrorUnpack
  else if ',' ∈ expression ∧ ',' ∈ allowed_chars then
    match expand_list_values (splitOnChar ',' expression) allowed_values with
    | .error er => .error er
    | .ok vals => .ok (vals.map Cell.int)
  else if '-' ∈ expression ∧ '-' ∈ allowed_chars then
    match splitOnChar '-' expression with
    | [s, e] =>
      match generate_range s e allowed_values with
      | .error er => .error er
      | .ok vals => .ok (vals.map Cell.int)
    | _ => .error .valueErrorUnpack
  else if expression = ['*'] ∧ '*' ∈ allowed_chars then .ok (allowed_values.map Cell.int)
  else if expression = ['?'] ∧ '?' ∈ allowed_chars then .ok [Cell.str ("N/A".data)]
  else
    match pyInt expression with
    | none => .error .invalidExprBareToken
    | some n => if n ∈ allowed_values then .ok [Cell.int n] else .error .invalidExprBareValue

/-! ## Static configuration (`config.py`, duplicated inline in `cron_parser.py`) -/

/-- ALLOWED_VALUES["minute"] = range(0, 60). -/
def minuteValues : List Int := (List.range 60).map (fun i => (i : Int))

/-- ALLOWED_VALUES["hour"] = range(0, 24). -/
def hourValues : List Int := (List.range 24).map (fun i => (i : Int))

/-- ALLOWED_VALUES["day_of_month"] = range(1, 32). -/
def dayOfMonthValues : List Int := (List.range 31).map (fun i => (i : Int) + 1)

/-- ALLOWED_VALUES["month"] = range(1, 13). -/
def monthValues : List Int := (List.range 12).map (fun i => (i : Int) + 1)

/-- ALLOWED_VALUES["day_of_week"] = range(1, 8). -/
def dayOfWeekValues : List Int := (List.range 7).map (fun i => (i : Int) + 1)

/-- ALLOWED_CHARS["minute"]. -/
def minuteChars : Chars := [',', '-', '*', '/']

/-- ALLOWED_CHARS["hour"]. -/
def hourChars : Chars := [',', '-', '*', '/']

/-- ALLOWED_CHARS["day_of_month"]. -/
def dayOfMonthChars : Chars := [',', '-', '*', '?', '/', 'W']

/-- ALLOWED_CHARS["month"]. -/
def monthChars : Chars := [',', '-', '*', '/']

/-- ALLOWED_CHARS["day_of_week"]. -/
def dayOfWeekChars : Chars := [',', '-', '*', '?', '/']

/-- dict(zip(DAY_NAMES, ALLOWED_VALUES["day_of_week"])), in insertion order. -/
def dayNamePairs : List (Chars × Int) :=
  [("SUN".data, 1), ("MON".data, 2), ("TUE".data, 3), ("WED".data, 4),
   ("THU".data, 5), ("FRI".data, 6), ("SAT".data, 7)]

/-- dict(zip(MONTH_NAMES, ALLOWED_VALUES["month"])), in insertion order. -/
def monthNamePairs : List (Chars × Int) :=
  [("JAN".data, 1), ("FEB".data, 2), ("MAR".data, 3), ("APR".data, 4),
   ("MAY".data, 5), ("JUN".data, 6), ("JUL".data, 7), ("AUG".data, 8),
   ("SEP".data, 9), ("OCT".data, 10), ("NOV".data, 11), ("DEC".data, 12)]

/-- Fuel-indexed worker for `replaceAll`; the fuel starts at the string
length, which bounds the number of recursion steps. -/
def replaceAllGo (pat rep : Chars) : Nat → Chars → Chars
  | _, [] => []
  | 0, s => s
  | fuel + 1, c :: rest =>
    if pat ≠ [] ∧ pat.isPrefixOf (c :: rest) then
      rep ++ replaceAllGo pat rep fuel ((c :: rest).drop pat.length)
    else c :: replaceAllGo pat rep fuel rest

/-- Model of Python `s.replace(old, new)` for a nonempty `old`: leftmost,
non-overlapping replacement (the empty-pattern case, which Python treats
specially, never occurs in this program and is modelled as identity). -/
def replaceAll (pat rep s : Chars) : Chars :=
  replaceAllGo pat rep s.length s

/-- `names_to_nums` (identical in both modules): successive textual
replacement of each alias by its numeric string, in table order. -/
def names_to_nums (expression : Chars) (in_map : List (Chars × Int)) : Chars :=
  in_map.foldl (fun e p => replaceAll p.1 (intToChars p.2) e) expression

/-- `parse_cron` of `c_parser.py`: six whitespace tokens, name
normalisation for month and day-of-week, then the five field evaluations
in dict-literal order, first failure aborting the parse. -/
def parse_cron (cron_exp : Chars) : Except Err (List (Chars × List Cell)) :=
  match pySplitWs cron_exp with
  | [minute, hour, day_of_month, month, day_of_week, cmd] =>
    let day_of_week_num := names_to_nums day_of_week dayNamePairs
    let month_num := names_to_nums month monthNamePairs
    match get_expression_values minute minuteChars minuteValues with
    | .error er => .error er
    | .ok v1 =>
      match get_expression_values hour hourChars hourValues with
      | .error er => .error er
      | .ok v2 =>
        match get_expression_values day_of_month dayOfMonthChars dayOfMonthValues with
        | .error er => .error er
        | .ok v3 =>
          match get_expression_values month_num monthChars monthValues with
          | .error er => .error er
          | .ok v4 =>
            match get_expression_values day_of_week_num dayOfWeekChars dayOfWeekValues with
            | .error er => .error er
            | .ok v5 =>
              .ok [("minute".data, v1), ("hour".data, v2), ("day_of_month".data, v3),
                   ("month".data, v4), ("day_of_week".data, v5),
                   ("command".data, [Cell.str cmd])]
  | _ => .error .malformedLine

/-! ## Table rendering -/

/-- Python `str(i)` applied to one result cell. -/
def cellChars : Cell → Chars
  | .int n => intToChars n
  | .str s => s

/-- Python `s.ljust(w)`. -/
def ljust (s : Chars) (w : Nat) : Chars :=
  s ++ List.replicate (w - s.length) ' '

/-- Python `field.replace("_", " ")` (single-character pattern, so a map). -/
def underscoresToSpaces (s : Chars) : Chars :=
  s.map (fun c => if c = '_' then ' ' else c)

/-- One table row: `field.replace("_"," ").ljust(col_width) + " " + " ".join(str(i) for i in values)`. -/
def tableRow (col_width : Nat) (field : Chars) (values : List Cell) : Chars :=
  ljust (underscoresToSpaces field) col_width ++ ' ' :: List.intercalate [' '] (values.map cellChars)

/-- Pieces accumulated by the loop of `generate_table` in `c_parser.py`:
after each row except the one at index `n - 1`, a newline piece is added. -/
def tablePieces (col_width n : Nat) : Nat → List (Chars × List Cell) → List Chars
  | _, [] => []
  | i, (field, values) :: rest =>
    if i ≠ n - 1 then tableRow col_width field values :: ['\n'] :: tablePieces col_width n (i + 1) rest
    else tableRow col_width field values :: tablePieces col_width n (i + 1) rest

/-- `generate_table` of `c_parser.py`: `"".join(table)` over the pieces. -/
def generate_table (data : List (Chars × List Cell)) (col_width : Nat := 13) : Chars :=
  (tablePieces col_width data.length 0 data).flatten

/-- Modelled from the spec: the Table Renderer contract of §4.6 / claim C8
— one row per entry in insertion order, rows newline-separated, no
trailing newline after the final row. -/
def render_spec (col_width : Nat) : List (Chars × List Cell) → Chars
  | [] => []
  | [p] => tableRow col_width p.1 p.2
  | p :: rest => tableRow col_width p.1 p.2 ++ '\n' :: render_spec col_width rest

/-! ## Lemmas about the Python string and list primitives -/

theorem splitOnChar_of_not_mem {sep : Char} {cs : Chars} (h : sep ∉ cs) :
    splitOnChar sep cs = [cs] := by
  induction cs with
  | nil => rfl
  | cons c rest ih =>
    have hc : c ≠ sep := fun he => h (he ▸ List.mem_cons_self c rest)
    have hr : sep ∉ rest := fun hm => h (List.mem_cons_of_mem c hm)
    simp only [splitOnChar, if_neg hc, ih hr]

theorem splitOnChar_append {sep : Char} {xs ys : Chars} (h : sep ∉ xs) :
    splitOnChar sep (xs ++ sep :: ys) = xs :: splitOnChar sep ys := by
  induction xs with
  | nil => simp [splitOnChar]
  | cons c rest ih =>
    have hc : c ≠ sep := fun he => h (he ▸ List.mem_cons_self c rest)
    have hr : sep ∉ rest := fun hm => h (List.mem_cons_of_mem c hm)
    simp only [List.cons_append, splitOnChar, List.append_eq, if_neg hc, ih hr]

theorem pyIndex?_of_mem {x : Int} {l : List Int} (h : x ∈ l) :
    ∃ i, pyIndex? x l = some i := by
  induction l with
  | nil => cases h
  | cons y rest ih =>
    by_cases hy : y = x
    · exact ⟨0, by simp [pyIndex?, hy]⟩
    · have hm : x ∈ rest := by
        rcases List.mem_cons.mp h with he | hm
        · exact absurd he.symm hy
        · exact hm
      obtain ⟨i, hi⟩ := ih hm
      exact ⟨i + 1, by simp [pyIndex?, if_neg hy, hi]⟩

theorem pyIndex?_mem {x : Int} {l : List Int} {i : Nat} (h : pyIndex? x l = some i) :
    x ∈ l := by
  induction l generalizing i with
  | nil => cases h
  | cons y rest ih =>
    by_cases hy : y = x
    · exact hy ▸ List.mem_cons_self y rest
    · rw [pyIndex?, if_neg hy, Option.map_eq_some'] at h
      obtain ⟨j, hj, _⟩ := h
      exact List.mem_cons_of_mem y (ih hj)

theorem pyIndex?_eq_none {x : Int} {l : List Int} :
    pyIndex? x l = none ↔ x ∉ l := by
  constructor
  · intro h hm
    obtain ⟨i, hi⟩ := pyIndex?_of_mem hm
    rw [h] at hi
    cases hi
  · intro hm
    cases hr : pyIndex? x l with
    | none => rfl
    | some i => exact absurd (pyIndex?_mem hr) hm

theorem pyIndex?_lt_length {x : Int} {l : List Int} {i : Nat} (h : pyIndex? x l = some i) :
    i < l.length := by
  induction l generalizing i with
  | nil => cases h
  | cons y rest ih =>
    by_cases hy : y = x
    · simp only [pyIndex?, if_pos hy, Option.some.injEq] at h
      simp [← h]
    · rw [pyIndex?, if_neg hy, Option.map_eq_some'] at h
      obtain ⟨j, hj, rfl⟩ := h
      simpa using ih hj

/-- In a strictly increasing list, the Python slice `l[:iM+1]` up to the
position of `M` is exactly the elements `≤ M`. -/
theorem take_index_eq_filter {l : List Int} {M : Int} {iM : Nat}
    (hs : l.Pairwise (· < ·)) (hM : pyIndex? M l = some iM) :
    l.take (iM + 1) = l.filter (fun v => decide (v ≤ M)) := by
  induction l generalizing iM with
  | nil => simp [pyIndex?] at hM
  | cons y rest ih =>
    have hy_lt : ∀ v ∈ rest, y < v := (List.pairwise_cons.mp hs).1
    by_cases hy : y = M
    · simp only [pyIndex?, if_pos hy, Option.some.injEq] at hM
      subst hy
      rw [← hM]
      have hnil : rest.filter (fun v => decide (v ≤ y)) = [] := by
        rw [List.filter_eq_nil_iff]
        intro a ha
        simp only [decide_eq_true_eq]
        exact not_le.mpr (hy_lt a ha)
      simp [List.filter_cons, hnil]
    · simp only [pyIndex?, if_neg hy, Option.map_eq_some'] at hM
      obtain ⟨j, hj, rfl⟩ := hM
      have hyM : y ≤ M := le_of_lt (hy_lt M (pyIndex?_mem hj))
      have := ih (List.Pairwise.of_cons hs) hj
      simp [List.take_succ_cons, List.filter_cons, hyM, this]

/-- In a strictly increasing list, the Python slice
`l[iN : iM + 1]` between the positions of `N` and `M` is exactly the
contiguous run of elements between `N` and `M` inclusive. -/
theorem slice_eq_filter {l : List Int} {N M : Int} {iN iM : Nat}
    (hs : l.Pairwise (· < ·)) (hN : pyIndex? N l = some iN)
    (hM : pyIndex? M l = some iM) (hNM : N ≤ M) :
    (l.drop iN).take (iM + 1 - iN) =
      l.filter (fun v => decide (N ≤ v) && decide (v ≤ M)) := by
  induction l generalizing iN iM with
  | nil => simp [pyIndex?] at hN
  | cons y rest ih =>
    have hy_lt : ∀ v ∈ rest, y < v := (List.pairwise_cons.mp hs).1
    by_cases hyN : y = N
    · simp only [pyIndex?, if_pos hyN, Option.some.injEq] at hN
      subst hyN
      rw [← hN]
      by_cases hyM : y = M
      · simp only [pyIndex?, if_pos hyM, Option.some.injEq] at hM
        subst hyM
        rw [← hM]
        have hnil : rest.filter (fun v => decide (y ≤ v) && decide (v ≤ y)) = [] := by
          rw [List.filter_eq_nil_iff]
          intro a ha
          simp only [Bool.and_eq_true, decide_eq_true_eq, not_and]
          intro _
          exact not_le.mpr (hy_lt a ha)
        simp [List.filter_cons, hnil]
      · simp only [pyIndex?, if_neg hyM, Option.map_eq_some'] at hM
        obtain ⟨j, hj, rfl⟩ := hM
        have hrest : rest.filter (fun v => decide (y ≤ v) && decide (v ≤ M)) =
            rest.filter (fun v => decide (v ≤ M)) := by
          apply List.filter_congr
          intro a ha
          simp [le_of_lt (hy_lt a ha)]
        have htake := take_index_eq_filter (List.Pairwise.of_cons hs) hj
        simp [List.filter_cons, hNM, hrest, htake]
    · simp only [pyIndex?, if_neg hyN, Option.map_eq_some'] at hN
      obtain ⟨i, hi, rfl⟩ := hN
      have hyltN : y < N := hy_lt N (pyIndex?_mem hi)
      have hyM : y ≠ M := fun he => absurd hNM (not_le.mpr (he ▸ hyltN))
      simp only [pyIndex?, if_neg hyM, Option.map_eq_some'] at hM
      obtain ⟨j, hj, rfl⟩ := hM
      have harith : j + 1 + 1 - (i + 1) = j + 1 - i := by omega
      have hNy : ¬N ≤ y := not_le.mpr hyltN
      simp [List.filter_cons, hNy, harith, ih (List.Pairwise.of_cons hs) hi hj]

/-! ## Dispatch lemmas for `get_expression_values` -/

theorem eval_weekday_branch {e ac : Chars} {avs : List Int} {d x : Chars}
    (hW : 'W' ∈ e ∧ 'W' ∈ ac) (hsplit : splitOnChar 'W' e = [d, x]) :
    get_expression_values e ac avs =
      match get_nearest_weekday d avs with
      | .error er => .error er
      | .ok lbl => .ok [Cell.str lbl] := by
  unfold get_expression_values
  rw [if_pos hW, hsplit]

theorem eval_step_branch {e ac : Chars} {avs : List Int} {s t : Chars}
    (hW : ¬('W' ∈ e ∧ 'W' ∈ ac)) (hS : '/' ∈ e ∧ '/' ∈ ac)
    (hsplit : splitOnChar '/' e = [s, t]) :
    get_expression_values e ac avs =
      match parse_step s t avs with
      | .error er => .error er
      | .ok vals => .ok (vals.map Cell.int) := by
  unfold get_expression_values
  rw [if_neg hW, if_pos hS, hsplit]

theorem eval_list_branch {e ac : Chars} {avs : List Int}
    (hW : ¬('W' ∈ e ∧ 'W' ∈ ac)) (hS : ¬('/' ∈ e ∧ '/' ∈ ac))
    (hC : ',' ∈ e ∧ ',' ∈ ac) :
    get_expression_values e ac avs =
      match expand_list_values (splitOnChar ',' e) avs with
      | .error er => .error er
      | .ok vals => .ok (vals.map Cell.int) := by
  unfold get_expression_values
  rw [if_neg hW, if_neg hS, if_pos hC]

theorem eval_range_branch {e ac : Chars} {avs : List Int} {s t : Chars}
    (hW : ¬('W' ∈ e ∧ 'W' ∈ ac)) (hS : ¬('/' ∈ e ∧ '/' ∈ ac))
    (hC : ¬(',' ∈ e ∧ ',' ∈ ac)) (hD : '-' ∈ e ∧ '-' ∈ ac)
    (hsplit : splitOnChar '-' e = [s, t]) :
    get_expression_values e ac avs =
      match generate_range s t avs with
      | .error er => .error er
      | .ok vals => .ok (vals.map Cell.int) := by
  unfold get_expression_values
  rw [if_neg hW, if_neg hS, if_neg hC, if_pos hD, hsplit]

theorem eval_bare_branch {e ac : Chars} {avs : List Int}
    (hW : ¬('W' ∈ e ∧ 'W' ∈ ac)) (hS : ¬('/' ∈ e ∧ '/' ∈ ac))
    (hC : ¬(',' ∈ e ∧ ',' ∈ ac)) (hD : ¬('-' ∈ e ∧ '-' ∈ ac))
    (hA : ¬(e = ['*'] ∧ '*' ∈ ac)) (hQ : ¬(e = ['?'] ∧ '?' ∈ ac)) :
    get_expression_values e ac avs =
      match pyInt e with
      | none => .error .invalidExprBareToken
      | some n => if n ∈ avs then .ok [Cell.int n] else .error .invalidExprBareValue := by
  unfold get_expression_values
  rw [if_neg hW, if_neg hS, if_neg hC, if_neg hD, if_neg hA, if_neg hQ]

/-! ## The legacy module `src/cron_parser.py` -/

namespace Legacy

/-- Failures of the legacy module: every custom raise is a bare
`Exception` there, so the constructors only track the raise site (messages
in comments), next to the uncaught builtin escapes. -/
inductive Err
  /-- Exception: "Please enter a weekday expression in the format <day of month>W" -/
  | excWeekdayFormat
  /-- Exception: "Please enter an integer for the day of month part of the weekday expression" -/
  | excWeekdayInt
  /-- Exception: "Please enter a valid day of the month" -/
  | excWeekdayDay
  /-- Exception: "Please enter a list expression with either comma separated integers or ranges" -/
  | excListElem
  /-- Exception: "Please enter a range in the format n-k where n and k are integers" -/
  | excRangeFormat
  /-- Exception: "Please enter a range where the start value is less than the end value" -/
  | excRangeOrder
  /-- Exception: "Please enter an integer step value" -/
  | excStepIncrement
  /-- Exception: "Please enter a start value containing a digit, * or range" -/
  | excStepStart
  /-- Exception: "The expression entered is invalid or not yet accounted for" -/
  | excBareToken
  /-- Exception: "Please enter a valid value for the field" -/
  | excBareValue
  /-- Uncaught builtin ValueError from tuple unpacking of a `split` result. -/
  | valueErrorUnpack
  /-- Uncaught builtin ValueError from `list.index` on a missing value. -/
  | valueErrorIndex
  /-- Uncaught builtin ValueError: "slice step cannot be zero". -/
  | valueErrorSliceStep
  /-- Uncaught builtin ZeroDivisionError from `i % 0`. -/
  | zeroDivision
deriving DecidableEq, Repr

/-- `parse_range` of `cron_parser.py`. -/
def parse_range (start endv : Chars) (allowed_values : List Int) : Except Err (List Int) :=
  match pyInt start, pyInt endv with
  | some s, some e =>
    if e < s then .error .excRangeOrder
    else
      match pyIndex? s allowed_values with
      | none => .error .valueErrorIndex
      | some start_index =>
        match pyIndex? e allowed_values with
        | none => .error .valueErrorIndex
        | some end_index => .ok ((allowed_values.drop start_index).take (end_index + 1 - start_index))
  | _, _ => .error .excRangeFormat

/-- `parse_step` of `cron_parser.py`.  The `list.index` call in the
bare-integer branch is not wrapped in a `try`, so a missing start escapes
as a builtin `ValueError`. -/
def parse_step (start_exp increment_exp : Chars) (allowed_values : List Int) : Except Err (List Int) :=
  match pyInt increment_exp with
  | none => .error .excStepIncrement
  | some increment_val =>
    if start_exp = ['*'] then
      match filterModZero allowed_values increment_val with
      | none => .error .zeroDivision
      | some r => .ok r
    else if '-' ∈ start_exp then
      match splitOnChar '-' start_exp with
      | [s, e] =>
        match parse_range s e allowed_values with
        | .error er => .error er
        | .ok ranges =>
          match pySliceStride ranges increment_val with
          | none => .error .valueErrorSliceStep
          | some r => .ok r
      | _ => .error .valueErrorUnpack
    else
      match pyInt start_exp with
      | none => .error .excStepStart
      | some sVal =>
        match pyIndex? sVal allowed_values with
        | none => .error .valueErrorIndex
        | some start_index =>
          match filterModZero (allowed_values.drop start_index) increment_val with
          | none => .error .zeroDivision
          | some r => .ok r

/-- `parse_weekday` of `cron_parser.py`. -/
def parse_weekday (day_of_month : Chars) (allowed_values : List Int) : Except Err (List Cell) :=
  match pyInt day_of_month with
  | none => .error .excWeekdayInt
  | some d => if d ∈ allowed_values then .ok [Cell.str (weekdayLabel d)] else .error .excWeekdayDay

/-- Accumulation loop of `parse_list` of `cron_parser.py`. -/
def parseListGo (elements : List Chars) (allowed_values : List Int) : Except Err (List Int) :=
  match elements with
  | [] => .ok []
  | v :: rest =>
    if '-' ∈ v then
      match splitOnChar '-' v with
      | [s, e] =>
        match parse_range s e allowed_values with
        | .error er => .error er
        | .ok vals =>
          match parseListGo rest allowed_values with
          | .error er => .error er
          | .ok r => .ok (vals ++ r)
      | _ => .error .valueErrorUnpack
    else
      match pyInt v with
      | none => .error .excListElem
      | some n =>
        match parseListGo rest allowed_values with
        | .error er => .error er
        | .ok r => .ok (n :: r)

/-- `parse_list` of `cron_parser.py`: accumulate, then `output.sort()`. -/
def parse_list (elements : List Chars) (allowed_values : List Int) : Except Err (List Int) :=
  match parseListGo elements allowed_values with
  | .error er => .error er
  | .ok output => .ok (pySortInts output)

/-- `parse_expression` of `cron_parser.py`: same dispatch chain as
`get_expression_values`. -/
def parse_expression (expression : Chars) (allowed_chars : Chars) (allowed_values : List Int) :
    Except Err (List Cell) :=
  if 'W' ∈ expression ∧ 'W' ∈ allowed_chars then
    match splitOnChar 'W' expression with
    | [d, _] => parse_weekday d allowed_values
    | _ => .error .excWeekdayFormat
  else if '/' ∈ expression ∧ '/' ∈ allowed_chars then
    match splitOnChar '/' expression with
    | [s, e] =>
      match parse_step s e allowed_values with
      | .error er => .error er
      | .ok vals => .ok (vals.map Cell.int)
    | _ => .error .valueErrorUnpack
  else if ',' ∈ expression ∧ ',' ∈ allowed_chars then
    match parse_list (splitOnChar ',' expression) allowed_values with
    | .error er => .error er
    | .ok vals => .ok (vals.map Cell.int)
  else if '-' ∈ expression ∧ '-' ∈ allowed_chars then
    match splitOnChar '-' expression with
    | [s, e] =>
      match parse_range s e allowed_values with
      | .error er => .error er
      | .ok vals => .ok (vals.map Cell.int)
    | _ => .error .valueErrorUnpack
  else if expression = ['*'] ∧ '*' ∈ allowed_chars then .ok (allowed_values.map Cell.int)
  else if expression = ['?'] ∧ '?' ∈ allowed_chars then .ok [Cell.str ("N/A".data)]
  else
    match pyInt expression with
    | none => .error .excBareToken
    | some n => if n ∈ allowed_values then .ok [Cell.int n] else .error .excBareValue

/-- `generate_table` of `cron_parser.py`: a newline is appended after
every row, the final one included. -/
def generate_table (data : List (Chars × List Cell)) (col_width : Nat := 13) : Chars :=
  (data.map (fun p => tableRow col_width p.1 p.2 ++ ['\n'])).flatten

end Legacy

end Cron
namespace Cron

/-! ## Claim theorems -/

/-- C2: for every range expression whose two parts parse as bounds N and M
that are members of the field's domain, evaluation with N ≤ M returns
exactly the contiguous slice of the domain sequence from N through M
inclusive in domain order (stated as the filter of the strictly
increasing domain), and with M < N it fails with the InvalidValue kind
(`InvalidCronValueError`, the end-before-start raise). -/
theorem claim_range_slice (e ac : Chars) (avs : List Int) (s t : Chars) (N M : Int)
    (hW : ¬('W' ∈ e ∧ 'W' ∈ ac)) (hS : ¬('/' ∈ e ∧ '/' ∈ ac))
    (hC : ¬(',' ∈ e ∧ ',' ∈ ac)) (hD : '-' ∈ e ∧ '-' ∈ ac)
    (hsplit : splitOnChar '-' e = [s, t])
    (hN : pyInt s = some N) (hM : pyInt t = some M)
    (hsort : avs.Pairwise (· < ·)) (hNmem : N ∈ avs) (hMmem : M ∈ avs) :
    (N ≤ M →
      get_expression_values e ac avs =
        .ok ((avs.filter (fun v => decide (N ≤ v) && decide (v ≤ M))).map Cell.int))
    ∧ (M < N → get_expression_values e ac avs = .error .invalidValueRangeOrder)
    ∧ Err.invalidValueRangeOrder.kind = ErrKind.invalidValue := by
  obtain ⟨iN, hiN⟩ := pyIndex?_of_mem hNmem
  obtain ⟨iM, hiM⟩ := pyIndex?_of_mem hMmem
  refine ⟨?_, ?_, rfl⟩
  · intro hNM
    have hgr : generate_range s t avs =
        .ok (avs.filter (fun v => decide (N ≤ v) && decide (v ≤ M))) := by
      simp only [generate_range, hN, hM, if_neg (not_lt.mpr hNM), hiN, hiM]
      rw [slice_eq_filter hsort hiN hiM hNM]
    rw [eval_range_branch hW hS hC hD hsplit, hgr]
  · intro hMN
    have hgr : generate_range s t avs = .error .invalidValueRangeOrder := by
      simp only [generate_range, hN, hM, if_pos hMN]
    rw [eval_range_branch hW hS hC hD hsplit, hgr]

/-- C2 witness: `2-5` on the minute field expands to `[2, 3, 4, 5]`. -/
theorem claim_range_slice_witness :
    get_expression_values ("2-5".data) minuteChars minuteValues = .ok ([2, 3, 4, 5].map Cell.int) := by
  have h := claim_range_slice ("2-5".data) minuteChars minuteValues ("2".data) ("5".data) 2 5
    (by decide) (by decide) (by decide) (by decide) (by decide) (by decide) (by decide)
    (by decide) (by decide) (by decide)
  rw [h.1 (by decide)]
  decide

/-- C3 counterexample: `0-60` on the minute field has integer bounds with
start ≤ end and an out-of-domain end, yet it fails with an uncaught
builtin ValueError (from `list.index`), not with the InvalidValue kind
the claim states. -/
theorem claim_range_badbound_counterexample :
    get_expression_values ("0-60".data) minuteChars minuteValues = .error .valueErrorIndex
    ∧ pyInt ("0".data) = some 0 ∧ pyInt ("60".data) = some 60
    ∧ (0 : Int) ≤ 60 ∧ (60 : Int) ∉ minuteValues
    ∧ Err.valueErrorIndex.kind ≠ ErrKind.invalidValue := by
  decide

/-- C3 amended: a range expression whose parts parse as integers with
start ≤ end but with a bound missing from the domain fails, with the
uncaught builtin ValueError raised by the unguarded `list.index` lookup
rather than with the InvalidValue kind. -/
theorem claim_range_badbound (e ac : Chars) (avs : List Int) (s t : Chars) (N M : Int)
    (hW : ¬('W' ∈ e ∧ 'W' ∈ ac)) (hS : ¬('/' ∈ e ∧ '/' ∈ ac))
    (hC : ¬(',' ∈ e ∧ ',' ∈ ac)) (hD : '-' ∈ e ∧ '-' ∈ ac)
    (hsplit : splitOnChar '-' e = [s, t])
    (hN : pyInt s = some N) (hM : pyInt t = some M) (hNM : N ≤ M)
    (hmiss : N ∉ avs ∨ M ∉ avs) :
    get_expression_values e ac avs = .error .valueErrorIndex
    ∧ Err.valueErrorIndex.kind = ErrKind.builtinValueError := by
  refine ⟨?_, rfl⟩
  have hgr : generate_range s t avs = .error .valueErrorIndex := by
    simp only [generate_range, hN, hM, if_neg (not_lt.mpr hNM)]
    rcases hmiss with hm | hm
    · rw [pyIndex?_eq_none.mpr hm]
    · cases hiN : pyIndex? N avs with
      | none => rfl
      | some i => rw [pyIndex?_eq_none.mpr hm]
  rw [eval_range_branch hW hS hC hD hsplit, hgr]

/-- C3 amended witness: `0-60` on the minute field fails with the builtin
ValueError from the domain lookup. -/
theorem claim_range_badbound_witness :
    get_expression_values ("0-60".data) minuteChars minuteValues = .error .valueErrorIndex :=
  (claim_range_badbound ("0-60".data) minuteChars minuteValues ("0".data) ("60".data) 0 60
    (by decide) (by decide) (by decide) (by decide) (by decide) (by decide) (by decide)
    (by decide) (Or.inr (by decide))).1

/-- C4 counterexample: the bare token `60` on the minute field is numeric
but outside the domain, yet it fails with the InvalidExpression kind
(`InvalidCronExpressionError` "Please enter a valid value for the field"),
not with the InvalidValue kind the claim states. -/
theorem claim_bare_token_counterexample :
    get_expression_values ("60".data) minuteChars minuteValues = .error .invalidExprBareValue
    ∧ pyInt ("60".data) = some 60 ∧ (60 : Int) ∉ minuteValues
    ∧ Err.invalidExprBareValue.kind ≠ ErrKind.invalidValue := by
  decide

/-- C4 amended: a field subexpression matching none of the wildcard,
list, range, step, weekday or `?` forms fails with InvalidExpression when
not numeric, fails with InvalidExpression (not InvalidValue) when numeric
but outside the domain, and otherwise returns the singleton integer. -/
theorem claim_bare_token (e ac : Chars) (avs : List Int)
    (hW : ¬('W' ∈ e ∧ 'W' ∈ ac)) (hS : ¬('/' ∈ e ∧ '/' ∈ ac))
    (hC : ¬(',' ∈ e ∧ ',' ∈ ac)) (hD : ¬('-' ∈ e ∧ '-' ∈ ac))
    (hA : ¬(e = ['*'] ∧ '*' ∈ ac)) (hQ : ¬(e = ['?'] ∧ '?' ∈ ac)) :
    (pyInt e = none → get_expression_values e ac avs = .error .invalidExprBareToken)
    ∧ (∀ n, pyInt e = some n → n ∉ avs →
        get_expression_values e ac avs = .error .invalidExprBareValue)
    ∧ (∀ n, pyInt e = some n → n ∈ avs → get_expression_values e ac avs = .ok [Cell.int n])
    ∧ Err.invalidExprBareToken.kind = ErrKind.invalidExpression
    ∧ Err.invalidExprBareValue.kind = ErrKind.invalidExpression := by
  refine ⟨?_, ?_, ?_, rfl, rfl⟩
  · intro hn
    rw [eval_bare_branch hW hS hC hD hA hQ, hn]
  · intro n hn hmem
    rw [eval_bare_branch hW hS hC hD hA hQ, hn]
    simp only [if_neg hmem]
  · intro n hn hmem
    rw [eval_bare_branch hW hS hC hD hA hQ, hn]
    simp only [if_pos hmem]

/-- C4 amended witness: `x` is rejected as InvalidExpression, `60` is
rejected as InvalidExpression, `7` expands to `[7]` on the minute field. -/
theorem claim_bare_token_witness :
    get_expression_values ("x".data) minuteChars minuteValues = .error .invalidExprBareToken
    ∧ get_expression_values ("60".data) minuteChars minuteValues = .error .invalidExprBareValue
    ∧ get_expression_values ("7".data) minuteChars minuteValues = .ok [Cell.int 7] := by
  refine ⟨?_, ?_, ?_⟩
  · exact (claim_bare_token ("x".data) minuteChars minuteValues (by decide) (by decide)
      (by decide) (by decide) (by decide) (by decide)).1 (by decide)
  · exact (claim_bare_token ("60".data) minuteChars minuteValues (by decide) (by decide)
      (by decide) (by decide) (by decide) (by decide)).2.1 60 (by decide) (by decide)
  · exact (claim_bare_token ("7".data) minuteChars minuteValues (by decide) (by decide)
      (by decide) (by decide) (by decide) (by decide)).2.2.1 7 (by decide) (by decide)

/-- C10: in a weekday expression containing exactly one `W` whose left
part parses as an in-domain integer, everything after the `W` is ignored:
the result is the single label for that integer, and equals the result of
the same expression with nothing after the `W`. -/
theorem claim_weekday_suffix (pre post ac : Chars) (avs : List Int) (n : Int)
    (hpre : 'W' ∉ pre) (hpost : 'W' ∉ post) (hac : 'W' ∈ ac)
    (hn : pyInt pre = some n) (hmem : n ∈ avs) :
    get_expression_values (pre ++ 'W' :: post) ac avs = .ok [Cell.str (weekdayLabel n)]
    ∧ get_expression_values (pre ++ 'W' :: post) ac avs =
        get_expression_values (pre ++ ['W']) ac avs := by
  have key : ∀ suffix : Chars, 'W' ∉ suffix →
      get_expression_values (pre ++ 'W' :: suffix) ac avs =
        .ok [Cell.str (weekdayLabel n)] := by
    intro suffix hsuf
    have hWmem : 'W' ∈ pre ++ 'W' :: suffix :=
      List.mem_append_right pre (List.mem_cons_self 'W' suffix)
    have hsplit : splitOnChar 'W' (pre ++ 'W' :: suffix) = [pre, suffix] := by
      rw [splitOnChar_append hpre, splitOnChar_of_not_mem hsuf]
    rw [eval_weekday_branch ⟨hWmem, hac⟩ hsplit]
    have hgw : get_nearest_weekday pre avs = .ok (weekdayLabel n) := by
      simp only [get_nearest_weekday, hn, if_pos hmem]
    rw [hgw]
  exact ⟨key post hpost, (key post hpost).trans (key [] (by simp)).symm⟩

/-- C10 witness: `6Wxyz` on the day-of-month field yields the label for 6,
the same as `6W`. -/
theorem claim_weekday_suffix_witness :
    get_expression_values ("6Wxyz".data) dayOfMonthChars dayOfMonthValues =
      .ok [Cell.str ("Nearest weekday to the 6 of the month".data)]
    ∧ get_expression_values ("6Wxyz".data) dayOfMonthChars dayOfMonthValues =
      get_expression_values ("6W".data) dayOfMonthChars dayOfMonthValues := by
  have h := claim_weekday_suffix ("6".data) ("xyz".data) dayOfMonthChars dayOfMonthValues 6
    (by decide) (by decide) (by decide) (by decide) (by decide)
  have he : ("6Wxyz".data) = ("6".data) ++ 'W' :: ("xyz".data) := by decide
  have he2 : ("6W".data) = ("6".data) ++ ['W'] := by decide
  constructor
  · rw [he, h.1]
    decide
  · rw [he, he2, h.2]

theorem filterModZero_zero {l : List Int} (h : l ≠ []) : filterModZero l 0 = none := by
  cases l with
  | nil => exact absurd rfl h
  | cons x rest => simp [filterModZero]

/-- C7 counterexample: a zero increment on `*/0` for the minute field
fails with an uncaught ZeroDivisionError, whose kind is not InvalidValue
as the claim states. -/
theorem claim_step_zero_counterexample :
    get_expression_values ("*/0".data) minuteChars minuteValues = .error .zeroDivision
    ∧ Err.zeroDivision.kind ≠ ErrKind.invalidValue := by
  decide

/-- C7 amended: a step expression whose increment parses as 0 fails in
all three start sub-cases, but never with the InvalidValue kind: the `*`
start (on a nonempty domain) and the in-domain bare-integer start escape
with ZeroDivisionError from `i % 0`, while a valid range start escapes
with the builtin ValueError of a zero slice step. -/
theorem claim_step_zero (e ac : Chars) (avs : List Int) (s t : Chars)
    (hW : ¬('W' ∈ e ∧ 'W' ∈ ac)) (hS : '/' ∈ e ∧ '/' ∈ ac)
    (hsplit : splitOnChar '/' e = [s, t]) (ht : pyInt t = some 0) :
    (s = ['*'] → avs ≠ [] → get_expression_values e ac avs = .error .zeroDivision)
    ∧ (∀ u v rs, splitOnChar '-' s = [u, v] → '-' ∈ s →
        generate_range u v avs = .ok rs →
        get_expression_values e ac avs = .error .valueErrorSliceStep)
    ∧ (∀ n i, s ≠ ['*'] → '-' ∉ s → pyInt s = some n → pyIndex? n avs = some i →
        get_expression_values e ac avs = .error .zeroDivision)
    ∧ Err.zeroDivision.kind ≠ ErrKind.invalidValue
    ∧ Err.valueErrorSliceStep.kind ≠ ErrKind.invalidValue := by
  rw [eval_step_branch hW hS hsplit]
  refine ⟨?_, ?_, ?_, by decide, by decide⟩
  · intro hstar hne
    subst hstar
    have hps : parse_step ['*'] t avs = .error .zeroDivision := by
      simp [parse_step, ht, filterModZero_zero hne]
    rw [hps]
  · intro u v rs hsp hd hgr
    have hne : ¬(s = ['*']) := by
      intro he
      rw [he] at hd
      simp at hd
    have hps : parse_step s t avs = .error .valueErrorSliceStep := by
      simp [parse_step, ht, if_neg hne, hd, hsp, hgr, pySliceStride]
    rw [hps]
  · intro n i hne hd hn hi
    have hdrop : avs.drop i ≠ [] := by
      rw [Ne, List.drop_eq_nil_iff]
      exact not_le.mpr (pyIndex?_lt_length hi)
    have hps : parse_step s t avs = .error .zeroDivision := by
      simp [parse_step, ht, if_neg hne, hd, hn, hi, filterModZero_zero hdrop]
    rw [hps]

/-- C7 amended witness: `*/0`, `1-5/0` and `5/0` on the minute field fail
with ZeroDivisionError, slice-step ValueError and ZeroDivisionError
respectively. -/
theorem claim_step_zero_witness :
    get_expression_values ("*/0".data) minuteChars minuteValues = .error .zeroDivision
    ∧ get_expression_values ("1-5/0".data) minuteChars minuteValues = .error .valueErrorSliceStep
    ∧ get_expression_values ("5/0".data) minuteChars minuteValues = .error .zeroDivision := by
  refine ⟨?_, ?_, ?_⟩
  · exact (claim_step_zero ("*/0".data) minuteChars minuteValues ("*".data) ("0".data)
      (by decide) (by decide) (by decide) (by decide)).1 (by decide) (by decide)
  · exact (claim_step_zero ("1-5/0".data) minuteChars minuteValues ("1-5".data) ("0".data)
      (by decide) (by decide) (by decide) (by decide)).2.1 ("1".data) ("5".data)
      [1, 2, 3, 4, 5] (by decide) (by decide) (by decide)
  · exact (claim_step_zero ("5/0".data) minuteChars minuteValues ("5".data) ("0".data)
      (by decide) (by decide) (by decide) (by decide)).2.2.1 5 5
      (by decide) (by decide) (by decide) (by decide)

/-- C9 counterexample: in `0,-1` on the minute field both elements parse
as integers (`int("-1")` is `-1`), yet evaluation fails (the `-1` element
is routed to the range handler), contradicting the claim that every such
list evaluates successfully. -/
theorem claim_list_unchecked_counterexample :
    pyInt ("0".data) = some 0 ∧ pyInt ("-1".data) = some (-1)
    ∧ get_expression_values ("0,-1".data) minuteChars minuteValues =
        .error .invalidExprRangeFormat := by
  decide

theorem expandListGo_ints (avs : List Int) :
    ∀ {elems : List Chars} {ns : List Int}, (∀ el ∈ elems, '-' ∉ el) →
      elems.mapM pyInt = some ns → expandListGo elems avs = .ok ns := by
  intro elems
  induction elems with
  | nil =>
    intro ns _ hns
    have h2 : some ([] : List Int) = some ns := hns
    cases h2
    rfl
  | cons v rest ih =>
    intro ns hd hns
    simp only [List.mapM_cons] at hns
    cases hv : pyInt v with
    | none => rw [hv] at hns; cases hns
    | some n =>
      rw [hv] at hns
      cases hrest : rest.mapM pyInt with
      | none => rw [hrest] at hns; cases hns
      | some ms =>
        rw [hrest] at hns
        have h2 : some (n :: ms) = some ns := hns
        cases h2
        have hdv : '-' ∉ v := hd v (List.mem_cons_self v rest)
        have hgo := ih (fun el hel => hd el (List.mem_cons_of_mem v hel)) hrest
        simp only [expandListGo, if_neg hdv, hv, hgo]

/-- C9 amended: bare list elements are never domain-checked — for every
list expression whose comma-separated elements contain no `-` and all
parse as integers, evaluation succeeds and returns the ascending
reordering of those integers, whether or not they lie in the domain. -/
theorem claim_list_unchecked (e ac : Chars) (avs : List Int) (ns : List Int)
    (hW : ¬('W' ∈ e ∧ 'W' ∈ ac)) (hS : ¬('/' ∈ e ∧ '/' ∈ ac))
    (hC : ',' ∈ e ∧ ',' ∈ ac)
    (hd : ∀ el ∈ splitOnChar ',' e, '-' ∉ el)
    (hns : (splitOnChar ',' e).mapM pyInt = some ns) :
    ∃ res : List Int, get_expression_values e ac avs = .ok (res.map Cell.int)
      ∧ res.Perm ns ∧ res.Sorted (· ≤ ·) := by
  refine ⟨pySortInts ns, ?_, ?_, ?_⟩
  · have hgo := expandListGo_ints avs hd hns
    rw [eval_list_branch hW hS hC]
    have hel : expand_list_values (splitOnChar ',' e) avs = .ok (pySortInts ns) := by
      simp only [expand_list_values, hgo]
    rw [hel]
  · exact List.perm_insertionSort (· ≤ ·) ns
  · exact List.sorted_insertionSort (· ≤ ·) ns

/-- C9 amended witness: `0,99` on the minute field succeeds with a result
that is a sorted permutation of `[0, 99]` although 99 is outside the
domain. -/
theorem claim_list_unchecked_witness :
    (∃ res : List Int, get_expression_values ("0,99".data) minuteChars minuteValues = .ok (res.map Cell.int)
      ∧ res.Perm [0, 99] ∧ res.Sorted (· ≤ ·))
    ∧ (99 : Int) ∉ minuteValues :=
  ⟨claim_list_unchecked ("0,99".data) minuteChars minuteValues [0, 99]
    (by decide) (by decide) (by decide) (by decide) (by decide), by decide⟩

/-- Expansion of a single list element as described by C5: an element
containing `-` must be a well-formed successful range, any other element
must parse as an integer. -/
def listElemExpand (avs : List Int) (el : Chars) : Option (List Int) :=
  if '-' ∈ el then
    match splitOnChar '-' el with
    | [s, t] => (generate_range s t avs).toOption
    | _ => none
  else (pyInt el).map (fun n => [n])

theorem except_toOption_eq_some {ε α : Type} {r : Except ε α} {a : α} :
    r.toOption = some a ↔ r = .ok a := by
  cases r <;> simp [Except.toOption]

theorem expandListGo_of_mapM (avs : List Int) :
    ∀ {elems : List Chars} {parts : List (List Int)},
      elems.mapM (listElemExpand avs) = some parts →
      expandListGo elems avs = .ok parts.flatten := by
  intro elems
  induction elems with
  | nil =>
    intro parts hp
    have h2 : some ([] : List (List Int)) = some parts := hp
    cases h2
    rfl
  | cons v rest ih =>
    intro parts hp
    simp only [List.mapM_cons] at hp
    cases hv : listElemExpand avs v with
    | none => rw [hv] at hp; cases hp
    | some p =>
      rw [hv] at hp
      cases hrest : rest.mapM (listElemExpand avs) with
      | none => rw [hrest] at hp; cases hp
      | some ps =>
        rw [hrest] at hp
        have h2 : some (p :: ps) = some parts := hp
        cases h2
        have hgo := ih hrest
        by_cases hdv : '-' ∈ v
        · rw [listElemExpand, if_pos hdv] at hv
          rcases hsp : splitOnChar '-' v with _ | ⟨s, _ | ⟨t, _ | _⟩⟩ <;> rw [hsp] at hv
          · cases hv
          · cases hv
          · have hgr : generate_range s t avs = .ok p := except_toOption_eq_some.mp hv
            simp only [expandListGo, if_pos hdv, hsp, hgr, hgo, List.flatten_cons]
          · cases hv
        · rw [listElemExpand, if_neg hdv] at hv
          cases hn : pyInt v with
          | none => rw [hn] at hv; cases hv
          | some n =>
            rw [hn] at hv
            simp only [Option.map_some', Option.some.injEq] at hv
            subst hv
            simp only [expandListGo, if_neg hdv, hn, hgo, List.flatten_cons,
              List.singleton_append]

/-- C5: for every list expression whose comma-separated elements are each
a bare integer or a valid range, the result is the concatenation of the
elements' expansions reordered ascending — a sorted permutation of the
flattened expansions, duplicates retained. -/
theorem claim_list_expansion (e ac : Chars) (avs : List Int) (parts : List (List Int))
    (hW : ¬('W' ∈ e ∧ 'W' ∈ ac)) (hS : ¬('/' ∈ e ∧ '/' ∈ ac))
    (hC : ',' ∈ e ∧ ',' ∈ ac)
    (hparts : (splitOnChar ',' e).mapM (listElemExpand avs) = some parts) :
    ∃ res : List Int, get_expression_values e ac avs = .ok (res.map Cell.int)
      ∧ res.Perm parts.flatten ∧ res.Sorted (· ≤ ·) := by
  refine ⟨pySortInts parts.flatten, ?_, ?_, ?_⟩
  · have hgo := expandListGo_of_mapM avs hparts
    rw [eval_list_branch hW hS hC]
    have hel : expand_list_values (splitOnChar ',' e) avs = .ok (pySortInts parts.flatten) := by
      simp only [expand_list_values, hgo]
    rw [hel]
  · exact List.perm_insertionSort (· ≤ ·) parts.flatten
  · exact List.sorted_insertionSort (· ≤ ·) parts.flatten

/-- C5 witness: `3,1-2,1` on the minute field expands each element
(`[3]`, `[1, 2]`, `[1]`) and returns a sorted permutation of the
concatenation `[3, 1, 2, 1]` — the duplicate 1 retained. -/
theorem claim_list_expansion_witness :
    ∃ res : List Int, get_expression_values ("3,1-2,1".data) minuteChars minuteValues = .ok (res.map Cell.int)
      ∧ res.Perm [3, 1, 2, 1] ∧ res.Sorted (· ≤ ·) := by
  have h := claim_list_expansion ("3,1-2,1".data) minuteChars minuteValues [[3], [1, 2], [1]]
    (by decide) (by decide) (by decide) (by decide)
  simpa using h

/-! ## Equivalence of the two evaluators (C1) -/

theorem toOption_cases {ε ε' α : Type} {a : Except ε α} {b : Except ε' α}
    (h : a.toOption = b.toOption) :
    (∃ x, a = .ok x ∧ b = .ok x) ∨ ((∃ u, a = .error u) ∧ ∃ v, b = .error v) := by
  cases a with
  | ok x =>
    cases b with
    | ok y =>
      left
      simp only [Except.toOption, Option.some.injEq] at h
      exact ⟨x, rfl, by rw [h]⟩
    | error v => simp [Except.toOption] at h
  | error u =>
    cases b with
    | ok y => simp [Except.toOption] at h
    | error v => exact Or.inr ⟨⟨u, rfl⟩, ⟨v, rfl⟩⟩

theorem range_equiv (s t : Chars) (avs : List Int) :
    (Legacy.parse_range s t avs).toOption = (generate_range s t avs).toOption := by
  unfold Legacy.parse_range generate_range
  cases pyInt s with
  | none => cases pyInt t <;> rfl
  | some a =>
    cases pyInt t with
    | none => rfl
    | some b =>
      dsimp only
      by_cases hlt : b < a
      · rw [if_pos hlt, if_pos hlt]
        rfl
      · rw [if_neg hlt, if_neg hlt]
        cases pyIndex? a avs with
        | none => rfl
        | some i =>
          dsimp only
          cases pyIndex? b avs <;> rfl

theorem step_equiv (s t : Chars) (avs : List Int) :
    (Legacy.parse_step s t avs).toOption = (parse_step s t avs).toOption := by
  unfold Legacy.parse_step parse_step
  cases pyInt t with
  | none => rfl
  | some inc =>
    dsimp only
    by_cases hstar : s = ['*']
    · rw [if_pos hstar, if_pos hstar]
      cases filterModZero avs inc <;> rfl
    · rw [if_neg hstar, if_neg hstar]
      by_cases hdash : '-' ∈ s
      · rw [if_pos hdash, if_pos hdash]
        cases hsp : splitOnChar '-' s with
        | nil => rfl
        | cons u r1 =>
          cases r1 with
          | nil => rfl
          | cons v r2 =>
            cases r2 with
            | cons w r3 => rfl
            | nil =>
              dsimp only
              rcases toOption_cases (range_equiv u v avs) with ⟨x, ha, hb⟩ | ⟨⟨eu, ha⟩, ⟨ev, hb⟩⟩
              · rw [ha, hb]
                dsimp only
                cases pySliceStride x inc <;> rfl
              · rw [ha, hb]
                rfl
      · rw [if_neg hdash, if_neg hdash]
        cases pyInt s with
        | none => rfl
        | some n =>
          dsimp only
          cases pyIndex? n avs with
          | none => rfl
          | some i =>
            dsimp only
            cases filterModZero (avs.drop i) inc <;> rfl

theorem listGo_equiv (avs : List Int) :
    ∀ elems : List Chars,
      (Legacy.parseListGo elems avs).toOption = (expandListGo elems avs).toOption := by
  intro elems
  induction elems with
  | nil => rfl
  | cons v rest ih =>
    unfold Legacy.parseListGo expandListGo
    by_cases hdash : '-' ∈ v
    · rw [if_pos hdash, if_pos hdash]
      cases hsp : splitOnChar '-' v with
      | nil => rfl
      | cons u r1 =>
        cases r1 with
        | nil => rfl
        | cons w r2 =>
          cases r2 with
          | cons x r3 => rfl
          | nil =>
            dsimp only
            rcases toOption_cases (range_equiv u w avs) with ⟨x, ha, hb⟩ | ⟨⟨eu, ha⟩, ⟨ev, hb⟩⟩
            · rw [ha, hb]
              dsimp only
              rcases toOption_cases ih with ⟨y, hc, hd⟩ | ⟨⟨e1, hc⟩, ⟨e2, hd⟩⟩ <;> rw [hc, hd] <;> rfl
            · rw [ha, hb]
              rfl
    · rw [if_neg hdash, if_neg hdash]
      cases pyInt v with
      | none => rfl
      | some n =>
        dsimp only
        rcases toOption_cases ih with ⟨y, hc, hd⟩ | ⟨⟨e1, hc⟩, ⟨e2, hd⟩⟩ <;> rw [hc, hd] <;> rfl

theorem list_equiv (elems : List Chars) (avs : List Int) :
    (Legacy.parse_list elems avs).toOption = (expand_list_values elems avs).toOption := by
  unfold Legacy.parse_list expand_list_values
  rcases toOption_cases (listGo_equiv avs elems) with ⟨x, ha, hb⟩ | ⟨⟨eu, ha⟩, ⟨ev, hb⟩⟩ <;>
    rw [ha, hb] <;> rfl

/-- C1: the two field-expression evaluators are behaviorally equivalent —
for every subexpression, allowed-character set and domain they produce
the same expanded value list, and they fail on exactly the same inputs
(the error payloads differ, so the comparison is after `Except.toOption`,
which is `none` exactly on failure). -/
theorem claim_evaluator_equiv (e ac : Chars) (avs : List Int) :
    (Legacy.parse_expression e ac avs).toOption = (get_expression_values e ac avs).toOption := by
  unfold Legacy.parse_expression get_expression_values
  by_cases hW : 'W' ∈ e ∧ 'W' ∈ ac
  · rw [if_pos hW, if_pos hW]
    cases hsp : splitOnChar 'W' e with
    | nil => rfl
    | cons d r1 =>
      cases r1 with
      | nil => rfl
      | cons x r2 =>
        cases r2 with
        | cons y r3 => rfl
        | nil =>
          dsimp only
          unfold Legacy.parse_weekday get_nearest_weekday
          cases pyInt d with
          | none => rfl
          | some n =>
            dsimp only
            by_cases hmem : n ∈ avs
            · rw [if_pos hmem, if_pos hmem]
              rfl
            · rw [if_neg hmem, if_neg hmem]
              rfl
  · rw [if_neg hW, if_neg hW]
    by_cases hS : '/' ∈ e ∧ '/' ∈ ac
    · rw [if_pos hS, if_pos hS]
      cases hsp : splitOnChar '/' e with
      | nil => rfl
      | cons s r1 =>
        cases r1 with
        | nil => rfl
        | cons t r2 =>
          cases r2 with
          | cons u r3 => rfl
          | nil =>
            dsimp only
            rcases toOption_cases (step_equiv s t avs) with ⟨x, ha, hb⟩ | ⟨⟨u1, ha⟩, ⟨v1, hb⟩⟩ <;>
              rw [ha, hb] <;> rfl
    · rw [if_neg hS, if_neg hS]
      by_cases hC : ',' ∈ e ∧ ',' ∈ ac
      · rw [if_pos hC, if_pos hC]
        rcases toOption_cases (list_equiv (splitOnChar ',' e) avs) with
          ⟨x, ha, hb⟩ | ⟨⟨u1, ha⟩, ⟨v1, hb⟩⟩ <;> rw [ha, hb] <;> rfl
      · rw [if_neg hC, if_neg hC]
        by_cases hD : '-' ∈ e ∧ '-' ∈ ac
        · rw [if_pos hD, if_pos hD]
          cases hsp : splitOnChar '-' e with
          | nil => rfl
          | cons s r1 =>
            cases r1 with
            | nil => rfl
            | cons t r2 =>
              cases r2 with
              | cons u r3 => rfl
              | nil =>
                dsimp only
                rcases toOption_cases (range_equiv s t avs) with
                  ⟨x, ha, hb⟩ | ⟨⟨u1, ha⟩, ⟨v1, hb⟩⟩ <;> rw [ha, hb] <;> rfl
        · rw [if_neg hD, if_neg hD]
          by_cases hA : e = ['*'] ∧ '*' ∈ ac
          · rw [if_pos hA, if_pos hA]
            rfl
          · rw [if_neg hA, if_neg hA]
            by_cases hQ : e = ['?'] ∧ '?' ∈ ac
            · rw [if_pos hQ, if_pos hQ]
              rfl
            · rw [if_neg hQ, if_neg hQ]
              cases pyInt e with
              | none => rfl
              | some n =>
                dsimp only
                by_cases hmem : n ∈ avs
                · rw [if_pos hmem, if_pos hmem]
                  rfl
                · rw [if_neg hmem, if_neg hmem]
                  rfl

/-! ## No evaluator failure is the malformed-line error (for C6) -/

theorem error_ne_of_ne {α : Type} {u v : Err} (h : u ≠ v) :
    (Except.error u : Except Err α) ≠ .error v := by
  intro hc
  injection hc with h2
  exact h h2

theorem error_ne_err_of {α β : Type} {u v : Err}
    (h : (Except.error u : Except Err α) ≠ .error v) :
    (Except.error u : Except Err β) ≠ .error v := by
  intro hc
  injection hc with h2
  exact h (h2 ▸ rfl)

theorem ok_ne_error {α : Type} {x : α} {v : Err} :
    (Except.ok x : Except Err α) ≠ .error v := by
  intro hc
  cases hc

theorem gnw_ne_malformed (d : Chars) (avs : List Int) :
    get_nearest_weekday d avs ≠ .error .malformedLine := by
  unfold get_nearest_weekday
  cases pyInt d with
  | none => exact error_ne_of_ne (by decide)
  | some n =>
    dsimp only
    by_cases hmem : n ∈ avs
    · rw [if_pos hmem]
      exact ok_ne_error
    · rw [if_neg hmem]
      exact error_ne_of_ne (by decide)

theorem range_ne_malformed (s t : Chars) (avs : List Int) :
    generate_range s t avs ≠ .error .malformedLine := by
  unfold generate_range
  cases pyInt s with
  | none => cases pyInt t <;> exact error_ne_of_ne (by decide)
  | some a =>
    cases pyInt t with
    | none => exact error_ne_of_ne (by decide)
    | some b =>
      dsimp only
      by_cases hlt : b < a
      · rw [if_pos hlt]
        exact error_ne_of_ne (by decide)
      · rw [if_neg hlt]
        cases pyIndex? a avs with
        | none => exact error_ne_of_ne (by decide)
        | some i =>
          dsimp only
          cases pyIndex? b avs with
          | none => exact error_ne_of_ne (by decide)
          | some j => exact ok_ne_error

theorem step_ne_malformed (s t : Chars) (avs : List Int) :
    parse_step s t avs ≠ .error .malformedLine := by
  unfold parse_step
  cases pyInt t with
  | none => exact error_ne_of_ne (by decide)
  | some inc =>
    dsimp only
    by_cases hstar : s = ['*']
    · rw [if_pos hstar]
      cases filterModZero avs inc with
      | none => exact error_ne_of_ne (by decide)
      | some r => exact ok_ne_error
    · rw [if_neg hstar]
      by_cases hdash : '-' ∈ s
      · rw [if_pos hdash]
        cases hsp : splitOnChar '-' s with
        | nil => exact error_ne_of_ne (by decide)
        | cons u r1 =>
          cases r1 with
          | nil => exact error_ne_of_ne (by decide)
          | cons v r2 =>
            cases r2 with
            | cons w r3 => exact error_ne_of_ne (by decide)
            | nil =>
              dsimp only
              cases hgr : generate_range u v avs with
              | error er =>
                have := range_ne_malformed u v avs
                rw [hgr] at this
                exact this
              | ok ranges =>
                dsimp only
                cases pySliceStride ranges inc with
                | none => exact error_ne_of_ne (by decide)
                | some r => exact ok_ne_error
      · rw [if_neg hdash]
        cases pyInt s with
        | none => exact error_ne_of_ne (by decide)
        | some n =>
          dsimp only
          cases pyIndex? n avs with
          | none => exact error_ne_of_ne (by decide)
          | some i =>
            dsimp only
            cases filterModZero (avs.drop i) inc with
            | none => exact error_ne_of_ne (by decide)
            | some r => exact ok_ne_error

theorem listGo_ne_malformed (avs : List Int) :
    ∀ elems : List Chars, expandListGo elems avs ≠ .error .malformedLine := by
  intro elems
  induction elems with
  | nil => exact ok_ne_error
  | cons v rest ih =>
    unfold expandListGo
    by_cases hdash : '-' ∈ v
    · rw [if_pos hdash]
      cases hsp : splitOnChar '-' v with
      | nil => exact error_ne_of_ne (by decide)
      | cons u r1 =>
        cases r1 with
        | nil => exact error_ne_of_ne (by decide)
        | cons w r2 =>
          cases r2 with
          | cons x r3 => exact error_ne_of_ne (by decide)
          | nil =>
            dsimp only
            cases hgr : generate_range u w avs with
            | error er =>
              have := range_ne_malformed u w avs
              rw [hgr] at this
              exact this
            | ok vals =>
              dsimp only
              cases hrest : expandListGo rest avs with
              | error er =>
                rw [hrest] at ih
                exact ih
              | ok r => exact ok_ne_error
    · rw [if_neg hdash]
      cases pyInt v with
      | none => exact error_ne_of_ne (by decide)
      | some n =>
        dsimp only
        cases hrest : expandListGo rest avs with
        | error er =>
          rw [hrest] at ih
          exact ih
        | ok r => exact ok_ne_error

theorem list_ne_malformed (elems : List Chars) (avs : List Int) :
    expand_list_values elems avs ≠ .error .malformedLine := by
  unfold expand_list_values
  cases hgo : expandListGo elems avs with
  | error er =>
    have := listGo_ne_malformed avs elems
    rw [hgo] at this
    exact this
  | ok r => exact ok_ne_error

theorem eval_ne_malformed (e ac : Chars) (avs : List Int) :
    get_expression_values e ac avs ≠ .error .malformedLine := by
  unfold get_expression_values
  by_cases hW : 'W' ∈ e ∧ 'W' ∈ ac
  · rw [if_pos hW]
    cases hsp : splitOnChar 'W' e with
    | nil => exact error_ne_of_ne (by decide)
    | cons d r1 =>
      cases r1 with
      | nil => exact error_ne_of_ne (by decide)
      | cons x r2 =>
        cases r2 with
        | cons y r3 => exact error_ne_of_ne (by decide)
        | nil =>
          dsimp only
          cases hw : get_nearest_weekday d avs with
          | error er =>
            have := gnw_ne_malformed d avs
            rw [hw] at this
            dsimp only
            exact error_ne_err_of this
          | ok lbl => exact ok_ne_error
  · rw [if_neg hW]
    by_cases hS : '/' ∈ e ∧ '/' ∈ ac
    · rw [if_pos hS]
      cases hsp : splitOnChar '/' e with
      | nil => exact error_ne_of_ne (by decide)
      | cons s r1 =>
        cases r1 with
        | nil => exact error_ne_of_ne (by decide)
        | cons t r2 =>
          cases r2 with
          | cons u r3 => exact error_ne_of_ne (by decide)
          | nil =>
            dsimp only
            cases hst : parse_step s t avs with
            | error er =>
              have := step_ne_malformed s t avs
              rw [hst] at this
              dsimp only
              exact error_ne_err_of this
            | ok vals => exact ok_ne_error
    · rw [if_neg hS]
      by_cases hC : ',' ∈ e ∧ ',' ∈ ac
      · rw [if_pos hC]
        cases hl : expand_list_values (splitOnChar ',' e) avs with
        | error er =>
          have := list_ne_malformed (splitOnChar ',' e) avs
          rw [hl] at this
          dsimp only
          exact error_ne_err_of this
        | ok vals => exact ok_ne_error
      · rw [if_neg hC]
        by_cases hD : '-' ∈ e ∧ '-' ∈ ac
        · rw [if_pos hD]
          cases hsp : splitOnChar '-' e with
          | nil => exact error_ne_of_ne (by decide)
          | cons s r1 =>
            cases r1 with
            | nil => exact error_ne_of_ne (by decide)
            | cons t r2 =>
              cases r2 with
              | cons u r3 => exact error_ne_of_ne (by decide)
              | nil =>
                dsimp only
                cases hgr : generate_range s t avs with
                | error er =>
                  have := range_ne_malformed s t avs
                  rw [hgr] at this
                  dsimp only
                  exact error_ne_err_of this
                | ok vals => exact ok_ne_error
        · rw [if_neg hD]
          by_cases hA : e = ['*'] ∧ '*' ∈ ac
          · rw [if_pos hA]
            exact ok_ne_error
          · rw [if_neg hA]
            by_cases hQ : e = ['?'] ∧ '?' ∈ ac
            · rw [if_pos hQ]
              exact ok_ne_error
            · rw [if_neg hQ]
              cases pyInt e with
              | none => exact error_ne_of_ne (by decide)
              | some n =>
                dsimp only
                by_cases hmem : n ∈ avs
                · rw [if_pos hmem]
                  exact ok_ne_error
                · rw [if_neg hmem]
                  exact error_ne_of_ne (by decide)

/-- C6: `parse_cron` fails with the malformed-line error (the
`InvalidCronExpressionError` raised when tuple unpacking of `split()`
fails) exactly when the input does not split into six whitespace
tokens; in particular `"1 1 6W 1 1"` fails that way, and on failure no
partial result map exists (the error carries no data). -/
theorem claim_malformed_line :
    (∀ line : Chars, parse_cron line = .error .malformedLine ↔ (pySplitWs line).length ≠ 6)
    ∧ parse_cron ("1 1 6W 1 1".data) = .error .malformedLine := by
  constructor
  · intro line
    unfold parse_cron
    rcases h : pySplitWs line with _ | ⟨a, _ | ⟨b, _ | ⟨c, _ | ⟨d, _ | ⟨f, _ | ⟨g, _ | ⟨k, rest⟩⟩⟩⟩⟩⟩⟩
    · simp
    · simp
    · simp
    · simp
    · simp
    · simp
    · dsimp only
      constructor
      · intro hc
        exfalso
        cases hv1 : get_expression_values a minuteChars minuteValues with
        | error er =>
          rw [hv1] at hc
          dsimp only at hc
          have := eval_ne_malformed a minuteChars minuteValues
          rw [hv1] at this
          injection hc with h2
          exact this (h2 ▸ rfl)
        | ok v1 =>
          rw [hv1] at hc
          dsimp only at hc
          cases hv2 : get_expression_values b hourChars hourValues with
          | error er =>
            rw [hv2] at hc
            dsimp only at hc
            have := eval_ne_malformed b hourChars hourValues
            rw [hv2] at this
            injection hc with h2
            exact this (h2 ▸ rfl)
          | ok v2 =>
            rw [hv2] at hc
            dsimp only at hc
            cases hv3 : get_expression_values c dayOfMonthChars dayOfMonthValues with
            | error er =>
              rw [hv3] at hc
              dsimp only at hc
              have := eval_ne_malformed c dayOfMonthChars dayOfMonthValues
              rw [hv3] at this
              injection hc with h2
              exact this (h2 ▸ rfl)
            | ok v3 =>
              rw [hv3] at hc
              dsimp only at hc
              cases hv4 : get_expression_values (names_to_nums d monthNamePairs)
                  monthChars monthValues with
              | error er =>
                rw [hv4] at hc
                dsimp only at hc
                have := eval_ne_malformed (names_to_nums d monthNamePairs) monthChars monthValues
                rw [hv4] at this
                injection hc with h2
                exact this (h2 ▸ rfl)
              | ok v4 =>
                rw [hv4] at hc
                dsimp only at hc
                cases hv5 : get_expression_values (names_to_nums f dayNamePairs)
                    dayOfWeekChars dayOfWeekValues with
                | error er =>
                  rw [hv5] at hc
                  dsimp only at hc
                  have := eval_ne_malformed (names_to_nums f dayNamePairs)
                    dayOfWeekChars dayOfWeekValues
                  rw [hv5] at this
                  injection hc with h2
                  exact this (h2 ▸ rfl)
                | ok v5 =>
                  rw [hv5] at hc
                  dsimp only at hc
                  exact Except.noConfusion hc
      · intro hlen
        exact absurd rfl hlen
    · simp
  · decide

/-! ## Table rendering (C8) -/

theorem tablePieces_flatten (w : Nat) :
    ∀ (l : List (Chars × List Cell)) (i n : Nat), n = i + l.length →
      (tablePieces w n i l).flatten = render_spec w l := by
  intro l
  induction l with
  | nil => intro i n _; rfl
  | cons p rest ih =>
    intro i n h
    cases rest with
    | nil =>
      have hi : ¬i ≠ n - 1 := by
        simp only [List.length_cons, List.length_nil] at h
        omega
      unfold tablePieces
      rw [if_neg hi]
      simp [tablePieces, render_spec]
    | cons q rest2 =>
      have hi : i ≠ n - 1 := by
        simp only [List.length_cons] at h
        omega
      have hrec := ih (i + 1) n (by simp only [List.length_cons] at h ⊢; omega)
      unfold tablePieces
      rw [if_pos hi]
      simp only [List.flatten_cons, hrec, render_spec]
      simp

/-- C8 amended (for the `c_parser.py` renderer): rendering with column
width 13 emits, for each map entry in insertion order, the field name
with underscores replaced by spaces left-justified to the column width,
one space, and the space-joined cells — rows newline-separated with no
trailing newline after the final row. -/
theorem claim_render_table (data : List (Chars × List Cell)) :
    generate_table data 13 = render_spec 13 data := by
  unfold generate_table
  exact tablePieces_flatten 13 data 0 data.length (by simp)

/-- C8 counterexample: the legacy renderer in `cron_parser.py` appends a
newline after every row including the final one, so on a one-entry map it
differs from the claimed no-trailing-newline format, ending in `'\n'`. -/
theorem claim_render_table_counterexample :
    Legacy.generate_table [("command".data, [Cell.str ("x".data)])] 13 ≠
      render_spec 13 [("command".data, [Cell.str ("x".data)])]
    ∧ (Legacy.generate_table [("command".data, [Cell.str ("x".data)])] 13).getLast? = some '\n' := by
  decide

end Cron

/-! ## Concrete evaluations mirroring the repository test suite -/
namespace Cron
example : pyInt ("-1".data) = some (-1) := by decide
example : pyInt ("1_0".data) = some 10 := by decide
example : pyInt (" +5 ".data) = some 5 := by decide
example : pyInt ("".data) = none := by decide
example : pyInt ("1__0".data) = none := by decide
example : pyInt ("_1".data) = none := by decide
example : pyInt ("1_".data) = none := by decide
example : splitOnChar '-' ("1-30".data) = [("1".data), ("30".data)] := by decide
example : splitOnChar 'W' ("6W".data) = [("6".data), ("".data)] := by decide
example : (pySplitWs ("5 1 6 11 3 /usr/bin/find".data)).length = 6 := by decide
example : names_to_nums ("MON,FRI".data) dayNamePairs = ("2,6".data) := by decide
example : names_to_nums ("JAN-MAR".data) monthNamePairs = ("1-3".data) := by decide
example : get_expression_values ("*/20".data) minuteChars minuteValues =
    .ok ([0, 20, 40].map Cell.int) := by decide
example : get_expression_values ("4/4".data) hourChars hourValues =
    .ok ([4, 8, 12, 16, 20].map Cell.int) := by decide
example : get_expression_values ("1-5,30".data) minuteChars minuteValues =
    .ok ([1, 2, 3, 4, 5, 30].map Cell.int) := by decide
example : get_expression_values ("6W".data) dayOfMonthChars dayOfMonthValues =
    .ok [Cell.str ("Nearest weekday to the 6 of the month".data)] := by decide
example : get_expression_values ("0-30/5".data) minuteChars minuteValues =
    .ok ([0, 5, 10, 15, 20, 25, 30].map Cell.int) := by decide
example : get_expression_values ("4/1".data) dayOfWeekChars dayOfWeekValues =
    .ok ([4, 5, 6, 7].map Cell.int) := by decide
example : parse_cron ("1 1 6W 1 1".data) = .error .malformedLine := by decide
end Cron

namespace Cron
example : get_expression_values ("0-60".data) minuteChars minuteValues = .error .valueErrorIndex := by decide
example : get_expression_values ("60".data) minuteChars minuteValues = .error .invalidExprBareValue := by decide
example : get_expression_values ("x".data) minuteChars minuteValues = .error .invalidExprBareToken := by decide
example : get_expression_values ("*/0".data) minuteChars minuteValues = .error .zeroDivision := by decide
example : get_expression_values ("1-5/0".data) minuteChars minuteValues = .error .valueErrorSliceStep := by decide
example : get_expression_values ("5/0".data) minuteChars minuteValues = .error .zeroDivision := by decide
example : get_expression_values ("0,-1".data) minuteChars minuteValues = .error .invalidExprRangeFormat := by decide
example : get_expression_values ("0,99".data) minuteChars minuteValues = .ok ([0, 99].map Cell.int) := by decide
example : get_expression_values ("6Wxyz".data) dayOfMonthChars dayOfMonthValues =
    .ok [Cell.str ("Nearest weekday to the 6 of the month".data)] := by decide
example : get_expression_values ("5-1".data) minuteChars minuteValues = .error .invalidValueRangeOrder := by decide
example : parse_cron ("5 1 6 11 3 /usr/bin/find".data) =
    .ok [("minute".data, [Cell.int 5]), ("hour".data, [Cell.int 1]),
         ("day_of_month".data, [Cell.int 6]), ("month".data, [Cell.int 11]),
         ("day_of_week".data, [Cell.int 3]), ("command".data, [Cell.str ("/usr/bin/find".data)])] := by decide
example : generate_table [("minute".data, [Cell.int 5]), ("command".data, [Cell.str ("/usr/bin/find".data)])] =
    ("minute        5\ncommand       /usr/bin/find".data) := by decide
example : Legacy.generate_table [("minute".data, [Cell.int 5]), ("command".data, [Cell.str ("/usr/bin/find".data)])] =
    ("minute        5\ncommand       /usr/bin/find\n".data) := by decide
example : Legacy.parse_expression ("1-5,30".data) minuteChars minuteValues =
    .ok ([1, 2, 3, 4, 5, 30].map Cell.int) := by decide
example : pySplitWs ("  a  bc ".data) = [("a".data), ("bc".data)] := by decide
example : intToChars (-7) = ("-7".data) := by decide
example : intToChars 0 = ("0".data) := by decide
example : intToChars 123 = ("123".data) := by decide
end Cron
